import Mathlib

/-!
Verification of the command parsing, dispatch and job-control subsystem of
`src/shell.c`.  Each definition is a shallow embedding of the C function of
the same name; effects on the OS (fork results, signal delivery, `/proc`
reads, `chdir` success) are passed in as explicit oracles, and undefined
behaviour of the C code (NULL dereference, out-of-bounds `vector_get`) is
modelled by returning `none`.
-/

namespace ShellC

/-- Accumulator loop for `tokenize`; `cur` holds the characters of the token
being built, in reverse. -/
def tokenizeAux : List Char → List Char → List String
  | [], cur => if cur.isEmpty then [] else [⟨cur.reverse⟩]
  | c :: cs, cur =>
    if c = ' ' then
      if cur.isEmpty then tokenizeAux cs []
      else (⟨cur.reverse⟩ : String) :: tokenizeAux cs []
    else tokenizeAux cs (c :: cur)

/-- `strtok(line, " ")` splits on runs of spaces and never yields an empty
token.  Newlines are not delimiters, so a trailing newline stays attached to
the final token. -/
def tokenize (s : String) : List String :=
  tokenizeAux s.data []

/-- `token[0]`, the first byte of a C string (the NUL terminator when the
string is empty). -/
def firstCharD (s : String) : Char :=
  s.data.headD (Char.ofNat 0)

/-- `token + 1`: the string without its first character. -/
def strTail (s : String) : String :=
  ⟨s.data.drop 1⟩

/-- Does the string end in the character `c`? -/
def endsInChar (s : String) (c : Char) : Bool :=
  match s.data.getLast? with
  | none => false
  | some d => d = c

/-- `trim_space` (shell.c:1033): removes the single final character when it is
a space, newline or carriage return. -/
def trim_space (s : String) : String :=
  match s.data.getLast? with
  | none => s
  | some c => if c = ' ' ∨ c = '\n' ∨ c = '\r' then ⟨s.data.dropLast⟩ else s

/-- The logical-operator tag recorded by the assembler
(`logical_operator` in `execute_command`): `&&`, `||` or `;`. -/
inductive LogOp
  | andOp
  | orOp
  | seqOp
deriving Repr, DecidableEq

/-- The state of the assembler while scanning tokens: the `commands` vector (whose
entries may be NULL, hence `Option String`), the operator tag, the command
string being accumulated, and the three redirection fields of the shell
state. -/
structure AsmState where
  commands : List (Option String)
  logical_operator : Option LogOp
  current_command : Option String
  output_file : Option String
  append_file : Option String
  input_file : Option String
deriving Repr, DecidableEq

def initAsmState : AsmState :=
  ⟨[], none, none, none, none, none⟩

/-- Does `token[strlen(token) - 1] == ';'` hold?  (strtok tokens are
nonempty, so reading the last character is safe.) -/
def endsInSemi (t : String) : Bool :=
  endsInChar t ';'

/-- The token-scanning loop of `execute_command` (shell.c:320-405), one case
per `if` in the C body, in the same order.  `none` models the undefined
behaviour that the C exhibits when it passes NULL to `trim_space`
(redirection operator with no following token) or to `strcat` (a lone `&`
with no accumulated command). -/
def assembleLoop : List String → AsmState → Option AsmState
  | [], st => some st
  | t :: rest, st =>
    if t = "&&" ∨ t = "||" then
      -- shell.c:322-333: record the operator, flush the current command
      let op := if t = "&&" then LogOp.andOp else LogOp.orOp
      match st.current_command with
      | some c =>
          assembleLoop rest { st with logical_operator := some op,
                                      commands := st.commands ++ [some (trim_space c)],
                                      current_command := none }
      | none => assembleLoop rest { st with logical_operator := some op }
    else if endsInSemi t then
      -- shell.c:334-356: fold the trailing semicolon into the tag
      let t' : String := ⟨t.data.dropLast⟩
      let pushed :=
        match st.current_command with
        | some c => trim_space (c ++ " " ++ t')
        | none => trim_space t'
      assembleLoop rest { st with logical_operator := some LogOp.seqOp,
                                  commands := st.commands ++ [some pushed],
                                  current_command := none }
    else if t = ">" then
      -- shell.c:358-365: consume the next token as the output path and stop
      match rest with
      | [] => none  -- trim_space(NULL): strlen(NULL) is undefined behaviour
      | p :: _ => some { st with output_file := some (trim_space p),
                                 commands := st.commands ++ [st.current_command] }
    else if t = ">>" then
      -- shell.c:366-373
      match rest with
      | [] => none
      | p :: _ => some { st with append_file := some (trim_space p),
                                 commands := st.commands ++ [st.current_command] }
    else if t = "<" then
      -- shell.c:374-381
      match rest with
      | [] => none
      | p :: _ => some { st with input_file := some (trim_space p),
                                 commands := st.commands ++ [st.current_command] }
    else if t = "&" then
      -- shell.c:382-388: append " &" to the accumulated command
      match st.current_command with
      | none => none  -- strcat(NULL, " ") is undefined behaviour
      | some c => assembleLoop rest { st with current_command := some (c ++ " " ++ "&") }
    else
      -- shell.c:389-404: accumulate the token; push at end of input
      let c' :=
        match st.current_command with
        | none => t
        | some c => c ++ " " ++ t
      match rest with
      | [] => some { st with commands := st.commands ++ [some (trim_space c')],
                             current_command := some c' }
      | _ :: _ => assembleLoop rest { st with current_command := some c' }

/-- Assembly phase of `execute_command` on a raw line. -/
def assemble (line : String) : Option AsmState :=
  assembleLoop (tokenize line) initAsmState

/-- The operator tag a single token carries, with the same precedence as the
`if` chain in `execute_command`: exact `&&` / `||` first, then a trailing
semicolon. -/
def tokTag (t : String) : Option LogOp :=
  if t = "&&" then some LogOp.andOp
  else if t = "||" then some LogOp.orOp
  else if endsInSemi t then some LogOp.seqOp
  else none

/-- Is the token one of the redirection operators that stop the scan? -/
def isRedirTok (t : String) : Bool :=
  t = ">" ∨ t = ">>" ∨ t = "<"

/-- The tag of the FIRST logical-operator token of the line, scanning
left-to-right and stopping at the first redirection operator.  This is the
description of the assembler used by the claim, to be compared with `assemble`. -/
def firstOpTag : List String → Option LogOp
  | [] => none
  | t :: rest =>
    match tokTag t with
    | some o => some o
    | none => if isRedirTok t then none else firstOpTag rest

/-- The tag of the LAST logical-operator token of the line before the first
redirection operator, with `acc` the tag seen so far. -/
def lastOpTag : List String → Option LogOp → Option LogOp
  | [], acc => acc
  | t :: rest, acc =>
    match tokTag t with
    | some o => lastOpTag rest (some o)
    | none => if isRedirTok t then acc else lastOpTag rest acc

/-- `vector_get(commands, i)`: `none` models both an out-of-bounds access and
a NULL entry, each of which the execution phase would crash on. -/
def vget (cmds : List (Option String)) (i : Nat) : Option String :=
  match cmds.get? i with
  | some (some s) => some s
  | _ => none

/-- The logical-operator execution phase of `execute_command`
(shell.c:408-482), abstracted over `status`, the exit status that
dispatching a command (built-in or external) returns.  The result is the
list of dispatched command strings in order; `none` models the crash on a
missing or NULL commands entry. -/
def runLogical (op : LogOp) (cmds : List (Option String))
    (status : String → Int) : Option (List String) :=
  match vget cmds 0 with
  | none => none
  | some c0 =>
    match op with
    | LogOp.andOp =>
        if status c0 = 0 then
          match vget cmds 1 with
          | none => none
          | some c1 => some [c0, c1]
        else some [c0]
    | LogOp.orOp =>
        if status c0 = 0 then some [c0]
        else
          match vget cmds 1 with
          | none => none
          | some c1 => some [c0, c1]
    | LogOp.seqOp =>
        match vget cmds 1 with
        | none => none
        | some c1 => some [c0, c1]

/-- `execute_command` reduced to the commands it dispatches: assembly, then
either the logical-operator pair execution or the single
`vector_get(commands, 0)` dispatch (shell.c:503-511). -/
def executedOf (line : String) (status : String → Int) : Option (List String) :=
  match assemble line with
  | none => none
  | some st =>
    match st.logical_operator with
    | some op => runLogical op st.commands status
    | none =>
      match vget st.commands 0 with
      | none => none
      | some c0 => some [c0]

/-- Whether the second command of a `cmd1 OP cmd2` line runs, as the claim
states it: `&&` iff status 0, `||` iff nonzero, `;` always. -/
def secondRuns (op : LogOp) (s : Int) : Bool :=
  match op with
  | LogOp.andOp => s = 0
  | LogOp.orOp => s ≠ 0
  | LogOp.seqOp => true

/-- The whitespace characters of C `isspace`, as skipped by `atoi`. -/
def isSpaceCh (c : Char) : Bool :=
  c = ' ' ∨ c = '\t' ∨ c = '\n' ∨ c = Char.ofNat 11 ∨ c = Char.ofNat 12 ∨ c = '\r'

/-- The digit-accumulation loop of C `atoi`: consume decimal digits, stop at
the first non-digit. -/
def atoiLoop : List Char → Int → Int
  | [], acc => acc
  | c :: cs, acc =>
    if c.isDigit then atoiLoop cs (acc * 10 + ((c.toNat : Int) - 48))
    else acc

/-- C `atoi`: optional leading whitespace, optional sign, then digits; with
no digits the result is 0.  (Overflow is out of scope: the shell only feeds
it short pid / index tokens.) -/
def atoi (s : String) : Int :=
  match s.data.dropWhile isSpaceCh with
  | [] => 0
  | c :: rest =>
    if c = '-' then - atoiLoop rest 0
    else if c = '+' then atoiLoop rest 0
    else atoiLoop (c :: rest) 0

/-- The text has no digits where `atoi` looks for them (after whitespace and
an optional sign), i.e. it "does not parse as a number". -/
def noLeadingDigit (s : String) : Bool :=
  match s.data.dropWhile isSpaceCh with
  | [] => true
  | c :: rest =>
    if c = '-' ∨ c = '+' then
      match rest with
      | [] => true
      | d :: _ => ¬ d.isDigit
    else ¬ c.isDigit

/-- The `/proc` snapshot built by `get_process_info` (shell.c:1042).  Its
fields come from the OS, so `ps` theorems take a collector oracle
`Int → PInfo`. -/
structure PInfo where
  pid : Int
  nthreads : Int
  vsize : Int
  state : Char
  start_str : String
  time_str : String
deriving Repr, DecidableEq

/-- One line printed through the formatting collaborator (`format.h`). -/
inductive Out
  | noProcess (pid : Int)
  | killedMsg (pid : Int)
  | stoppedMsg (pid : Int)
  | contMsg (pid : Int)
  | invalidCommand (text : String)
  | invalidIndex
  | commandPrinted (c : String)
  | historyLine (i : Nat) (c : String)
  | noHistoryMatch
  | noDirectory (path : String)
  | psHeader
  | psRow (info : PInfo) (command : String)
deriving Repr, DecidableEq

/-- `kill_process` (shell.c:962): `kill(pid, SIGKILL)`, whose success is the
oracle `alive`; on failure it prints the no-process error, on success the
killed message.  It returns nothing either way. -/
def kill_process (alive : Int → Bool) (pid : Int) : List Out :=
  if alive pid then [Out.killedMsg pid] else [Out.noProcess pid]

/-- `stop_process` (shell.c:979): `kill(pid, SIGSTOP)`. -/
def stop_process (alive : Int → Bool) (pid : Int) : List Out :=
  if alive pid then [Out.stoppedMsg pid] else [Out.noProcess pid]

/-- `continue_process` (shell.c:998): `kill(pid, SIGCONT)`. -/
def continue_process (alive : Int → Bool) (pid : Int) : List Out :=
  if alive pid then [Out.contMsg pid] else [Out.noProcess pid]

/-- `execute_cd` (shell.c:646): a relative path is resolved against the
current working directory; `chdirOk` is the `chdir` success oracle. -/
def execute_cd (cwd : String) (chdirOk : String → Bool) (path : String) :
    Int × List Out :=
  if firstCharD path ≠ '/' then
    if chdirOk (cwd ++ "/" ++ path) then (0, []) else (1, [Out.noDirectory path])
  else if chdirOk path then (0, []) else (1, [Out.noDirectory path])

/-- What one built-in dispatch does: its return status, what it prints, the
history entry it hands back to `execute_command` for re-invocation (if any),
and whether it calls `exit_shell`. -/
structure BuiltinResult where
  status : Int
  outputs : List Out
  reinvoke : Option String
  exits : Bool
deriving Repr, DecidableEq

/-- `execute_history` (shell.c:683): print every entry with its 0-based
index, oldest first. -/
def execute_history (history : List String) : BuiltinResult :=
  ⟨0, history.enum.map (fun p => Out.historyLine p.1 p.2), none, false⟩

/-- `execute_n` (shell.c:701): run history entry `n`; out-of-range `n`
(negative, or `(size_t)n` at least the history length) prints the
invalid-index error and returns 1 without re-invoking anything. -/
def execute_n (history : List String) (n : Int) : BuiltinResult :=
  if n < 0 ∨ (history.length : Int) ≤ n then
    ⟨1, [Out.invalidIndex], none, false⟩
  else
    let entry := history.getD n.toNat ""
    ⟨0, [Out.commandPrinted entry], some entry, false⟩

/-- `strncmp(a, b, strlen(a)) == 0`: does `b` start with `a`? -/
def strncmpEq : List Char → List Char → Bool
  | [], _ => true
  | _ :: _, [] => false
  | a :: as, b :: bs => a = b && strncmpEq as bs

/-- `execute_prefix` in shell.c:728: scan history newest-to-oldest for the
first entry starting with the given text and re-invoke it. -/
def execute_bang (history : List String) (pfx : String) : BuiltinResult :=
  match history.reverse.find? (fun e => strncmpEq pfx.data e.data) with
  | some e => ⟨0, [Out.commandPrinted e], some e, false⟩
  | none => ⟨1, [Out.noHistoryMatch], none, false⟩

/-- The parts of the global shell state and of the OS that the built-in
executor reads. -/
structure Env where
  history : List String
  alive : Int → Bool
  cwd : String
  chdirOk : String → Bool
  background_jobs : List Int

/-- `execute_builtin_command` (shell.c:538), one branch per `if` of the C
else-chain, in the same order.  `none` models `strtok` returning NULL on an
all-space command (the C would then pass NULL to `strcmp`). -/
def execute_builtin_command (env : Env) (command : String) :
    Option BuiltinResult :=
  match tokenize command with
  | [] => none
  | tok :: rest =>
    if tok = "cd" then
      match rest with
      | [] => some ⟨1, [Out.invalidCommand "cd"], none, false⟩
      | path :: _ =>
          let r := execute_cd env.cwd env.chdirOk path
          some ⟨r.1, r.2, none, false⟩
    else if tok = "!history" then
      some (execute_history env.history)
    else if firstCharD tok = '#' then
      some (execute_n env.history (atoi (strTail tok)))
    else if firstCharD tok = '!' then
      -- shell.c:565: the search text is the whole command minus the bang
      some (execute_bang env.history (strTail command))
    else if tok = "exit" then
      -- `exit_shell` (shell.c:625) kills every tracked job, then exits 0
      some ⟨0, (env.background_jobs.map (kill_process env.alive)).flatten, none, true⟩
    else if tok = "kill" then
      match rest with
      | [] => some ⟨1, [Out.invalidCommand command], none, false⟩
      | t :: _ => some ⟨0, kill_process env.alive (atoi t), none, false⟩
    else if tok = "stop" then
      match rest with
      | [] => some ⟨1, [Out.invalidCommand command], none, false⟩
      | t :: _ => some ⟨0, stop_process env.alive (atoi t), none, false⟩
    else if tok = "cont" then
      match rest with
      | [] => some ⟨1, [Out.invalidCommand command], none, false⟩
      | t :: _ => some ⟨0, continue_process env.alive (atoi t), none, false⟩
    else if tok = "ps" then
      some ⟨0, [], none, false⟩  -- outputs are modelled separately by execute_ps
    else
      some ⟨1, [Out.invalidCommand command], none, false⟩

/-- `is_builtin_command` (shell.c:1015). -/
def is_builtin_command (command : String) : Bool :=
  match tokenize command with
  | [] => false
  | tok :: _ =>
    let t := trim_space tok
    t = "stop" ∨ t = "cont" ∨ t = "kill" ∨ t = "exit" ∨ t = "cd" ∨
      t = "!history" ∨ firstCharD t = '#' ∨ firstCharD t = '!' ∨ t = "ps"

/-- The fields of the shared shell state that `execute_external_command`
reads and writes. -/
structure ShellSt where
  output_file : Option String
  append_file : Option String
  input_file : Option String
  background_jobs : List Int
  background_jobs_commands : List String
deriving Repr, DecidableEq

/-- What the OS did for this invocation: `fork` failed, or it produced a
child `pid` whose (foreground-only) `waitpid` status has the given
`WIFEXITED` / `WEXITSTATUS` decomposition. -/
inductive ForkRes
  | failed
  | ok (pid : Int) (ifExited : Bool) (exitStatus : Int)
deriving Repr, DecidableEq

/-- The field-clearing epilogue of `execute_external_command`
(shell.c:889-900): three conditional assignments, input then output then
append. -/
def clearRedir (st : ShellSt) : ShellSt :=
  let st := if st.input_file.isSome then { st with input_file := none } else st
  let st := if st.output_file.isSome then { st with output_file := none } else st
  let st := if st.append_file.isSome then { st with append_file := none } else st
  st

/-- The parent-side control flow of `execute_external_command`
(shell.c:763-904): detect the trailing `&`, then either return 1 on fork
failure, wait in the foreground (returning 1 on a wait anomaly or a nonzero
child status), or register a background job — reaching the clearing epilogue
only on the paths that do not return early. -/
def execute_external_command (st : ShellSt) (command : String) (res : ForkRes) :
    Int × ShellSt :=
  let background := endsInChar command '&'
  let cmd : String := if background then ⟨command.data.dropLast⟩ else command
  match res with
  | ForkRes.failed => (1, st)  -- shell.c:779-781: early return, nothing cleared
  | ForkRes.ok pid ifExited exitStatus =>
    if background then
      -- shell.c:802-810: register the job, then fall through to the epilogue
      let st := { st with background_jobs := st.background_jobs ++ [pid],
                          background_jobs_commands := st.background_jobs_commands ++ [cmd] }
      (0, clearRedir st)
    else
      if ¬ ifExited then (1, st)            -- shell.c:792-796: early return
      else if exitStatus ≠ 0 then (1, st)   -- shell.c:797-800: early return
      else (0, clearRedir st)               -- shell.c:889-903

/-- The flag bits the child passes to `open` for a redirection target. -/
structure OpenFlags where
  rdwr : Bool
  creat : Bool
  append : Bool
  trunc : Bool
deriving Repr, DecidableEq

/-- `open(output_file, O_RDWR | O_CREAT, mode)` — shell.c:821. -/
def outputOpenFlags : OpenFlags :=
  ⟨true, true, false, false⟩

/-- `open(append_file, O_RDWR | O_APPEND | O_CREAT, mode)` — shell.c:837. -/
def appendOpenFlags : OpenFlags :=
  ⟨true, true, true, false⟩

/-- POSIX contents of a file that held `prev` after a process opens it with
`flags` and writes `written` through the fresh descriptor: `O_TRUNC` empties
it first, `O_APPEND` writes at the end, and otherwise the write lands at
offset 0 over the old bytes. -/
def contentsAfterWrite (flags : OpenFlags) (prev written : List Char) :
    List Char :=
  let base := if flags.trunc then [] else prev
  if flags.append then base ++ written
  else written ++ base.drop written.length

/-- The removal loop of `remove_background_job` (shell.c:923-930):
`vector_erase` at each index holding `pid`, with the index still advancing
after an erase. -/
def eraseLoop (jobs : List Int) (pid : Int) (i : Nat) : List Int :=
  if h : i < jobs.length then
    if jobs.get ⟨i, h⟩ = pid then eraseLoop (jobs.eraseIdx i) pid (i + 1)
    else eraseLoop jobs pid (i + 1)
  else jobs
termination_by jobs.length - i
decreasing_by
  · simp [List.length_eraseIdx, h]
    omega
  · omega

/-- `remove_background_job` (shell.c:921): erase the pid from the job
vector, then send it SIGKILL via `kill_process` as the cleanup guarantee. -/
def remove_background_job (jobs : List Int) (alive : Int → Bool) (pid : Int) :
    List Int × List Out :=
  (eraseLoop jobs pid 0, kill_process alive pid)

/-- The row-printing loop of `execute_ps` (shell.c:944-950): one row per
tracked job, the info snapshot coming from the collector oracle and the
command text from the parallel commands vector (`none` models the
out-of-bounds `vector_get` when that vector is shorter). -/
def psRows (info : Int → PInfo) : List Int → List String → Option (List Out)
  | [], _ => some []
  | _ :: _, [] => none
  | p :: ps, c :: cs =>
    match psRows info ps cs with
    | none => none
    | some r => some (Out.psRow (info p) c :: r)

/-- `execute_ps` (shell.c:941): header, the job rows in vector order, then
the row of the shell itself with command text `./shell`. -/
def execute_ps (info : Int → PInfo) (jobs : List Int) (cmds : List String)
    (shellPid : Int) : Option (List Out) :=
  match psRows info jobs cmds with
  | none => none
  | some rows => some (Out.psHeader :: rows ++ [Out.psRow (info shellPid) "./shell"])

theorem lastOpTag_cons_op (t : String) (rest : List String)
    (acc : Option LogOp) (o : LogOp) (h : tokTag t = some o) :
    lastOpTag (t :: rest) acc = lastOpTag rest (some o) := by
  simp [lastOpTag, h]

theorem lastOpTag_cons_redir (t : String) (rest : List String)
    (acc : Option LogOp) (h : tokTag t = none) (hr : isRedirTok t = true) :
    lastOpTag (t :: rest) acc = acc := by
  simp [lastOpTag, h, hr]

theorem lastOpTag_cons_plain (t : String) (rest : List String)
    (acc : Option LogOp) (h : tokTag t = none) (hr : isRedirTok t = false) :
    lastOpTag (t :: rest) acc = lastOpTag rest acc := by
  simp [lastOpTag, h, hr]

/-- Whatever state the scan is in, a successful pass leaves as tag the LAST
operator occurrence seen before the scan ends (a redirection token ends
it). -/
theorem assembleLoop_lastOp : ∀ (toks : List String) (st st' : AsmState),
    assembleLoop toks st = some st' →
    st'.logical_operator = lastOpTag toks st.logical_operator := by
  intro toks
  induction toks with
  | nil =>
    intro st st' h
    simp only [assembleLoop, Option.some.injEq] at h
    subst h
    rfl
  | cons t rest ih =>
    intro st st' h
    simp only [assembleLoop] at h
    by_cases h1 : t = "&&" ∨ t = "||"
    · rw [if_pos h1] at h
      have htok : tokTag t = some (if t = "&&" then LogOp.andOp else LogOp.orOp) := by
        rcases h1 with h1 | h1 <;> subst h1 <;> decide
      rw [lastOpTag_cons_op t rest _ _ htok]
      cases hc : st.current_command <;> simp only [hc] at h <;> exact ih _ _ h
    · rw [if_neg h1] at h
      have hA : ¬ t = "&&" := fun hh => h1 (Or.inl hh)
      have hO : ¬ t = "||" := fun hh => h1 (Or.inr hh)
      by_cases h2 : endsInSemi t = true
      · rw [if_pos h2] at h
        have htok : tokTag t = some LogOp.seqOp := by
          simp only [tokTag, if_neg hA, if_neg hO, if_pos h2]
        rw [lastOpTag_cons_op t rest _ _ htok]
        exact ih _ _ h
      · rw [if_neg h2] at h
        by_cases h3 : t = ">"
        · subst h3
          rw [if_pos rfl] at h
          rw [lastOpTag_cons_redir _ rest _ (by decide) (by decide)]
          cases rest with
          | nil => simp at h
          | cons p ps =>
            simp only [Option.some.injEq] at h
            subst h
            rfl
        · rw [if_neg h3] at h
          by_cases h4 : t = ">>"
          · subst h4
            rw [if_pos rfl] at h
            rw [lastOpTag_cons_redir _ rest _ (by decide) (by decide)]
            cases rest with
            | nil => simp at h
            | cons p ps =>
              simp only [Option.some.injEq] at h
              subst h
              rfl
          · rw [if_neg h4] at h
            by_cases h5 : t = "<"
            · subst h5
              rw [if_pos rfl] at h
              rw [lastOpTag_cons_redir _ rest _ (by decide) (by decide)]
              cases rest with
              | nil => simp at h
              | cons p ps =>
                simp only [Option.some.injEq] at h
                subst h
                rfl
            · rw [if_neg h5] at h
              have htok : tokTag t = none := by
                simp only [tokTag, if_neg hA, if_neg hO, if_neg h2]
              have hred : isRedirTok t = false := by
                simp only [isRedirTok]
                simp [h3, h4, h5]
              rw [lastOpTag_cons_plain t rest _ htok hred]
              by_cases h6 : t = "&"
              · subst h6
                rw [if_pos rfl] at h
                cases hc : st.current_command with
                | none =>
                  simp only [hc] at h
                  exact absurd h (by simp)
                | some c =>
                  simp only [hc] at h
                  have hres := ih _ _ h
                  exact hres
              · rw [if_neg h6] at h
                cases rest with
                | nil =>
                  cases hc : st.current_command <;> simp only [hc, Option.some.injEq] at h <;>
                    subst h <;> rfl
                | cons r rs =>
                  cases hc : st.current_command <;> simp only [hc] at h <;>
                    · have hres := ih _ _ h
                      exact hres

/-- Claim C1 counterexample: on the line `x && y; z`, which carries two
logical-operator tokens, the first occurrence in token order is `&&` but the
assembler records `;` (the last occurrence) as the single operator tag of
the line, so the claim that the first occurrence wins is false. -/
theorem c1_first_op_counterexample :
    (assemble "x && y; z").map AsmState.logical_operator =
      some (some LogOp.seqOp) ∧
    firstOpTag (tokenize "x && y; z") = some LogOp.andOp ∧
    some (some LogOp.seqOp) ≠
      (some (firstOpTag (tokenize "x && y; z")) : Option (Option LogOp)) := by
  refine ⟨by decide, by decide, by decide⟩

/-- Claim C1 (amended): for every input line whose assembly completes, the
assembler honors the LAST logical-operator occurrence, in left-to-right
token order and stopping at the first redirection token, as the single
operator tag of the line. -/
theorem c1_last_op_wins (line : String) (st : AsmState)
    (h : assemble line = some st) :
    st.logical_operator = lastOpTag (tokenize line) none :=
  assembleLoop_lastOp (tokenize line) initAsmState st h

/-- The assembler state produced by the line `x && y; z`. -/
def c1Asm : AsmState :=
  ⟨[some "x", some "y", some "z"], some LogOp.seqOp, some "z", none, none, none⟩

/-- Witness for C1 (amended) at the line `x && y; z`. -/
theorem c1_last_op_wins_witness :
    assemble "x && y; z" = some c1Asm ∧
    c1Asm.logical_operator = lastOpTag (tokenize "x && y; z") none :=
  ⟨by decide, c1_last_op_wins "x && y; z" c1Asm (by decide)⟩

/-- Claim C2: on a well-formed two-command line (the assembler produced
exactly the pair `[cmd1, cmd2]` and an operator tag), the second command is
dispatched exactly when `secondRuns` says so: under `&&` iff the dispatch of
the first returned 0, under `||` iff it returned nonzero, under `;`
always. -/
theorem c2_short_circuit (line : String) (st : AsmState) (op : LogOp)
    (cmd1 cmd2 : String) (status : String → Int)
    (ha : assemble line = some st)
    (ho : st.logical_operator = some op)
    (hc : st.commands = [some cmd1, some cmd2]) :
    executedOf line status =
      some (cmd1 :: (if secondRuns op (status cmd1) then [cmd2] else [])) := by
  unfold executedOf
  rw [ha]
  simp only [ho, hc]
  cases op with
  | andOp =>
    by_cases hs : status cmd1 = 0 <;>
      simp [runLogical, vget, secondRuns, hs]
  | orOp =>
    by_cases hs : status cmd1 = 0 <;>
      simp [runLogical, vget, secondRuns, hs]
  | seqOp =>
    simp [runLogical, vget, secondRuns]

/-- A dispatch-status oracle under which `x` succeeds and `y` fails. -/
def c2Status : String → Int :=
  fun c => if c = "x" then 0 else 1

/-- The assembler state produced by the line `x && y`. -/
def c2AsmAnd : AsmState :=
  ⟨[some "x", some "y"], some LogOp.andOp, some "y", none, none, none⟩

/-- Witness for C2 at the line `x && y` with a status oracle under which `x`
exits 0, so both commands are dispatched. -/
theorem c2_short_circuit_witness :
    executedOf "x && y" c2Status =
      some ("x" :: (if secondRuns LogOp.andOp (c2Status "x") then ["y"] else [])) :=
  c2_short_circuit "x && y" c2AsmAnd LogOp.andOp "x" "y" c2Status
    (by decide) rfl rfl

/-- Claim C3 (code bug): a line ending in a bare redirection operator makes
`execute_command` hand the NULL result of `strtok` to `trim_space`, whose
`strlen(NULL)` is undefined behaviour (modelled as `none`) — no
MalformedCommand error exists anywhere in the code.  Evaluated here at the
failing inputs `echo hi >`, `echo hi >>` and `sort <`. -/
theorem c3_trailing_redirection_is_undefined :
    assemble "echo hi >" = none ∧
    assemble "echo hi >>" = none ∧
    assemble "sort <" = none := by
  refine ⟨by decide, by decide, by decide⟩

/-- Claim C4 (code bug): the child opens the `>` target with
`O_RDWR | O_CREAT` and no `O_TRUNC` (shell.c:821), so the write lands over
the old bytes without truncation: with `out.txt` previously holding
`hello world`, `echo hi > out.txt` leaves `hi\nlo world`, not `hi\n`. -/
theorem c4_output_redirect_does_not_truncate :
    outputOpenFlags.trunc = false ∧
    contentsAfterWrite outputOpenFlags "hello world".data "hi\n".data =
      "hi\nlo world".data ∧
    contentsAfterWrite outputOpenFlags "hello world".data "hi\n".data ≠
      "hi\n".data := by
  refine ⟨rfl, by decide, by decide⟩

/-- Claim C5 (code bug): the clearing epilogue (shell.c:889-900) is skipped
by the early `return 1` paths, so the redirection fields survive a fork
failure, a wait anomaly, and a nonzero foreground exit status — evaluated
here with `output_file` set to `out.txt` in all three cases (only the
success and background paths clear). -/
theorem c5_redirection_fields_survive_failure :
    execute_external_command ⟨some "out.txt", none, none, [], []⟩ "ls"
        ForkRes.failed =
      (1, ⟨some "out.txt", none, none, [], []⟩) ∧
    (execute_external_command ⟨some "out.txt", none, none, [], []⟩ "grep q f"
        (ForkRes.ok 99 true 1)).2.output_file = some "out.txt" ∧
    (execute_external_command ⟨some "out.txt", none, none, [], []⟩ "ls"
        (ForkRes.ok 99 false 0)).2.output_file = some "out.txt" ∧
    (execute_external_command ⟨some "out.txt", none, none, [], []⟩ "ls"
        (ForkRes.ok 99 true 0)).2.output_file = none := by
  refine ⟨by decide, by decide, by decide, by decide⟩

/-- An environment with empty history, no live process, every `chdir`
succeeding. -/
def deadEnv : Env := ⟨[], fun _ => false, "/", fun _ => true, []⟩

/-- Claim C6 counterexample: `kill 42` with no live process 42 does report
the process-not-found error, but `execute_builtin_command` returns 0
(shell.c:583), not the nonzero status the claim asserts. -/
theorem c6_kill_counterexample :
    (execute_builtin_command deadEnv "kill 42").map BuiltinResult.outputs =
      some [Out.noProcess 42] ∧
    (execute_builtin_command deadEnv "kill 42").map BuiltinResult.status = some 0 ∧
    ¬ (execute_builtin_command deadEnv "kill 42").map BuiltinResult.status ≠ some 0 := by
  refine ⟨by decide, by decide, by decide⟩

/-- Claim C6 (amended): for every `kill <pid>` (likewise `stop <pid>` and
`cont <pid>`) where no process with that pid exists, the built-in reports a
process-not-found error but returns status 0 (success), because the
`kill`/`stop`/`cont` branches return 0 unconditionally after the void
signal helpers. -/
theorem c6_signal_error_returns_zero (env : Env) (ck cs cc pidTok : String)
    (hk : tokenize ck = ["kill", pidTok])
    (hs : tokenize cs = ["stop", pidTok])
    (hc : tokenize cc = ["cont", pidTok])
    (hdead : env.alive (atoi pidTok) = false) :
    execute_builtin_command env ck =
      some ⟨0, [Out.noProcess (atoi pidTok)], none, false⟩ ∧
    execute_builtin_command env cs =
      some ⟨0, [Out.noProcess (atoi pidTok)], none, false⟩ ∧
    execute_builtin_command env cc =
      some ⟨0, [Out.noProcess (atoi pidTok)], none, false⟩ := by
  refine ⟨?_, ?_, ?_⟩
  · unfold execute_builtin_command
    rw [hk]
    simp [kill_process, hdead, firstCharD]
  · unfold execute_builtin_command
    rw [hs]
    simp [stop_process, hdead, firstCharD]
  · unfold execute_builtin_command
    rw [hc]
    simp [continue_process, hdead, firstCharD]

/-- Witness for C6 (amended) at `kill 42`, `stop 42`, `cont 42` with no
process alive. -/
theorem c6_signal_error_returns_zero_witness :
    execute_builtin_command deadEnv "kill 42" =
      some ⟨0, [Out.noProcess (atoi "42")], none, false⟩ ∧
    execute_builtin_command deadEnv "stop 42" =
      some ⟨0, [Out.noProcess (atoi "42")], none, false⟩ ∧
    execute_builtin_command deadEnv "cont 42" =
      some ⟨0, [Out.noProcess (atoi "42")], none, false⟩ :=
  c6_signal_error_returns_zero deadEnv "kill 42" "stop 42" "cont 42" "42"
    (by decide) (by decide) (by decide) rfl

/-- Claim C7 counterexample: removing pid 7 from the job table when process
7 is already dead prints the process-not-found report — the signaling is not
silent as the claim asserts. -/
theorem c7_dead_pid_not_silent :
    (remove_background_job [7] (fun _ => false) 7).2 = [Out.noProcess 7] ∧
    [Out.noProcess 7] ≠ ([] : List Out) := by
  constructor
  · unfold remove_background_job kill_process
    simp
  · decide

/-- Dropping one more element never increases the occurrence count. -/
theorem drop_succ_count_le (pid : Int) (jobs : List Int) (i : Nat) :
    (jobs.drop (i + 1)).count pid ≤ (jobs.drop i).count pid := by
  have h := (List.drop_sublist 1 (jobs.drop i)).count_le pid
  rwa [List.drop_drop] at h

/-- When no occurrence of `pid` remains at or after index `i`, the removal
loop changes nothing. -/
theorem eraseLoop_of_count_zero (pid : Int) :
    ∀ (n : Nat) (jobs : List Int) (i : Nat), jobs.length - i ≤ n →
      (jobs.drop i).count pid = 0 →
      eraseLoop jobs pid i = jobs := by
  intro n
  induction n with
  | zero =>
    intro jobs i hn hc
    rw [eraseLoop, dif_neg (by omega)]
  | succ n ih =>
    intro jobs i hn hc
    rw [eraseLoop]
    by_cases hlt : i < jobs.length
    · rw [dif_pos hlt]
      have hdrop : jobs.drop i = jobs[i] :: jobs.drop (i + 1) :=
        List.drop_eq_getElem_cons hlt
      have hget : ¬ jobs.get ⟨i, hlt⟩ = pid := by
        simp only [List.get_eq_getElem]
        intro hh
        rw [hdrop, hh, List.count_cons_self] at hc
        omega
      rw [if_neg hget]
      have htail := drop_succ_count_le pid jobs i
      exact ih jobs (i + 1) (by omega) (by omega)
    · rw [dif_neg hlt]

/-- When `pid` occurs at most once from index `i` on, the removal loop keeps
the entries before `i` and filters `pid` out of the rest (the loop advances
the index past an erased slot, but with at most one occurrence nothing is
skipped). -/
theorem eraseLoop_filter_aux (pid : Int) :
    ∀ (n : Nat) (jobs : List Int) (i : Nat), jobs.length - i ≤ n →
      (jobs.drop i).count pid ≤ 1 →
      eraseLoop jobs pid i =
        jobs.take i ++ (jobs.drop i).filter (fun j => j ≠ pid) := by
  intro n
  induction n with
  | zero =>
    intro jobs i hn hc
    rw [eraseLoop, dif_neg (by omega)]
    rw [List.drop_eq_nil_of_le (by omega), List.take_of_length_le (by omega)]
    simp
  | succ n ih =>
    intro jobs i hn hc
    rw [eraseLoop]
    by_cases hlt : i < jobs.length
    · rw [dif_pos hlt]
      have hdrop : jobs.drop i = jobs[i] :: jobs.drop (i + 1) :=
        List.drop_eq_getElem_cons hlt
      have hlen : (jobs.take i).length = i := by
        simp [List.length_take]
        omega
      by_cases heq : jobs.get ⟨i, hlt⟩ = pid
      · rw [if_pos heq]
        simp only [List.get_eq_getElem] at heq
        have hc1 : (jobs.drop (i + 1)).count pid = 0 := by
          rw [hdrop, heq, List.count_cons_self] at hc
          omega
        have herase : jobs.eraseIdx i = jobs.take i ++ jobs.drop (i + 1) :=
          List.eraseIdx_eq_take_drop_succ jobs i
        have hone : i + 1 - i = 1 := by omega
        have hre : (jobs.eraseIdx i).drop (i + 1) = (jobs.drop (i + 1)).drop 1 := by
          rw [herase, List.drop_append_eq_append_drop, hlen,
            List.drop_eq_nil_of_le (by omega), List.nil_append, hone]
        have hc2 : ((jobs.eraseIdx i).drop (i + 1)).count pid = 0 := by
          rw [hre]
          have h2 := (List.drop_sublist 1 (jobs.drop (i + 1))).count_le pid
          omega
        rw [eraseLoop_of_count_zero pid (jobs.eraseIdx i).length _ _ (by omega) hc2]
        rw [herase, hdrop, heq]
        congr 1
        rw [List.filter_cons]
        simp only [ne_eq, decide_not, not_true_eq_false, decide_False, Bool.not_false,
          Bool.false_eq_true, if_false]
        rw [eq_comm, List.filter_eq_self]
        intro a ha
        have hane : a ≠ pid :=
          fun hh => absurd (List.count_pos_iff.mpr (hh ▸ ha)) (by omega)
        simp [hane]
      · rw [if_neg heq]
        simp only [List.get_eq_getElem] at heq
        have hc1 : (jobs.drop (i + 1)).count pid ≤ 1 := by
          have := drop_succ_count_le pid jobs i
          omega
        rw [ih jobs (i + 1) (by omega) hc1, hdrop, List.filter_cons]
        have hd : (decide (jobs[i] ≠ pid)) = true := by simp [heq]
        simp only [hd, if_true]
        have htake : jobs.take (i + 1) = jobs.take i ++ [jobs[i]] := by
          rw [List.take_succ, List.getElem?_eq_getElem hlt]
          rfl
        rw [htake, List.append_assoc]
        rfl
    · rw [dif_neg hlt]
      rw [List.drop_eq_nil_of_le (by omega), List.take_of_length_le (by omega)]
      simp

/-- Claim C7 (amended): `remove_background_job` deletes the matching job
entry (pids are unique among live jobs, so at most one occurrence) and sends
the termination signal via `kill_process`; signaling an already-dead pid
prints a process-not-found report but is not escalated — the removal still
completes and nothing else happens. -/
theorem c7_remove_deletes_and_reports (jobs : List Int) (alive : Int → Bool)
    (pid : Int) (h : jobs.count pid ≤ 1) :
    remove_background_job jobs alive pid =
      (jobs.filter (fun j => j ≠ pid),
       if alive pid then [Out.killedMsg pid] else [Out.noProcess pid]) := by
  unfold remove_background_job kill_process
  rw [eraseLoop_filter_aux pid jobs.length jobs 0 (by omega) (by simpa using h)]
  simp

/-- Witness for C7 (amended): removing dead pid 7 from `[3, 7, 9]` deletes
the entry and prints the report. -/
theorem c7_remove_deletes_and_reports_witness :
    remove_background_job [3, 7, 9] (fun _ => false) 7 =
      ([3, 9], [Out.noProcess 7]) := by
  have h := c7_remove_deletes_and_reports [3, 7, 9] (fun _ => false) 7 (by decide)
  rw [h]
  decide

/-- Claim C8: the `#<n>` built-in hands `atoi` of the text after `#` to
`execute_n`; out-of-range indices report the invalid-index error, return 1
and re-invoke nothing, while in-range indices re-invoke the stored entry at
index n (the `reinvoke` field is what `execute_n` feeds back into
`execute_command`, i.e. the full pipeline). -/
theorem c8_history_index (env : Env) (command tok : String) (n : Int)
    (htok : tokenize command = [tok])
    (hhash : firstCharD tok = '#')
    (hn : atoi (strTail tok) = n) :
    execute_builtin_command env command = some (execute_n env.history n) ∧
    ((n < 0 ∨ (env.history.length : Int) ≤ n) →
      execute_n env.history n = ⟨1, [Out.invalidIndex], none, false⟩) ∧
    (0 ≤ n → n < (env.history.length : Int) →
      execute_n env.history n =
        ⟨0, [Out.commandPrinted (env.history.getD n.toNat "")],
         some (env.history.getD n.toNat ""), false⟩) := by
  refine ⟨?_, ?_, ?_⟩
  · unfold execute_builtin_command
    rw [htok]
    have hcd : tok ≠ "cd" := by
      intro hh
      rw [hh] at hhash
      exact absurd hhash (by decide)
    have hhist : tok ≠ "!history" := by
      intro hh
      rw [hh] at hhash
      exact absurd hhash (by decide)
    simp [hcd, hhist, hhash, hn]
  · intro hout
    unfold execute_n
    rw [if_pos hout]
  · intro h0 h1
    unfold execute_n
    rw [if_neg (by omega)]

/-- An environment with two history entries, every process alive. -/
def histEnv : Env := ⟨["ls -l", "pwd"], fun _ => true, "/", fun _ => true, []⟩

/-- Witness for C8 at `#5` (out of range for a 2-entry history) and `#1`
(in range). -/
theorem c8_history_index_witness :
    (execute_builtin_command histEnv "#5" = some (execute_n histEnv.history 5) ∧
      execute_n histEnv.history 5 = ⟨1, [Out.invalidIndex], none, false⟩) ∧
    (execute_builtin_command histEnv "#1" = some (execute_n histEnv.history 1) ∧
      execute_n histEnv.history 1 =
        ⟨0, [Out.commandPrinted (histEnv.history.getD 1 "")],
         some (histEnv.history.getD 1 ""), false⟩) := by
  have h5 := c8_history_index histEnv "#5" "#5" 5 (by decide) (by decide) (by decide)
  have h1 := c8_history_index histEnv "#1" "#1" 1 (by decide) (by decide) (by decide)
  exact ⟨⟨h5.1, h5.2.1 (by decide)⟩, ⟨h1.1, h1.2.2 (by decide) (by decide)⟩⟩

/-- The ps row loop prints exactly the zip of the job and command vectors,
in order, whenever the commands vector is at least as long as the job
vector.  (It can be strictly longer in reachable states:
`remove_background_job` erases only `background_jobs` and never
`background_jobs_commands`.) -/
theorem psRows_eq_map (info : Int → PInfo) :
    ∀ (jobs : List Int) (cmds : List String), jobs.length ≤ cmds.length →
      psRows info jobs cmds =
        some ((jobs.zip cmds).map (fun pc => Out.psRow (info pc.1) pc.2)) := by
  intro jobs
  induction jobs with
  | nil =>
    intro cmds h
    rfl
  | cons p ps ih =>
    intro cmds h
    cases cmds with
    | nil => simp at h
    | cons c cs =>
      simp only [psRows]
      rw [ih cs (by simpa using h)]
      simp

/-- Claim C9: every `ps` prints a header, then exactly one row per tracked
job in job-table (insertion) order, then exactly one row for the pid of the
shell itself, always last, for any number of jobs including zero.  The
hypothesis is `≤`, not `=`: removing a job (shell.c:921-931) erases only
the pid vector, so the commands vector may be strictly longer and `ps`
still prints one row per remaining job. -/
theorem c9_ps_one_row_per_job (info : Int → PInfo) (jobs : List Int)
    (cmds : List String) (shellPid : Int) (h : jobs.length ≤ cmds.length) :
    execute_ps info jobs cmds shellPid =
      some (Out.psHeader ::
        ((jobs.zip cmds).map (fun pc => Out.psRow (info pc.1) pc.2) ++
          [Out.psRow (info shellPid) "./shell"])) ∧
    ((jobs.zip cmds).map (fun pc => Out.psRow (info pc.1) pc.2)).length =
      jobs.length := by
  constructor
  · unfold execute_ps
    rw [psRows_eq_map info jobs cmds h]
    rfl
  · rw [List.length_map, List.length_zip]
    exact Nat.min_eq_left h

/-- A concrete process-info collector oracle. -/
def psInfo0 : Int → PInfo := fun p => ⟨p, 1, 100, 'R', "Jan01", "00:00"⟩

/-- Witness for C9 with two jobs over a stale three-entry commands vector
(as left behind by a removed job) and with zero jobs over a stale
one-entry commands vector. -/
theorem c9_ps_one_row_per_job_witness :
    (execute_ps psInfo0 [5, 7] ["sleep 5", "sleep 7", "stale"] 3 =
      some (Out.psHeader ::
        ((([5, 7] : List Int).zip ["sleep 5", "sleep 7", "stale"]).map
            (fun pc => Out.psRow (psInfo0 pc.1) pc.2) ++
          [Out.psRow (psInfo0 3) "./shell"])) ∧
      ((([5, 7] : List Int).zip ["sleep 5", "sleep 7", "stale"]).map
          (fun pc => Out.psRow (psInfo0 pc.1) pc.2)).length = 2) ∧
    (execute_ps psInfo0 [] ["stale"] 3 =
      some (Out.psHeader ::
        ((([] : List Int).zip ["stale"]).map
            (fun pc => Out.psRow (psInfo0 pc.1) pc.2) ++
          [Out.psRow (psInfo0 3) "./shell"])) ∧
      ((([] : List Int).zip ["stale"]).map
          (fun pc => Out.psRow (psInfo0 pc.1) pc.2)).length = 0) :=
  ⟨c9_ps_one_row_per_job psInfo0 [5, 7] ["sleep 5", "sleep 7", "stale"] 3 (by decide),
   c9_ps_one_row_per_job psInfo0 [] ["stale"] 3 (by decide)⟩

/-- The digit loop returns its accumulator when the head is not a digit. -/
theorem atoiLoop_head_nondigit (c : Char) (cs : List Char)
    (h : c.isDigit = false) : atoiLoop (c :: cs) 0 = 0 := by
  unfold atoiLoop
  rw [h]
  simp

/-- Text with no digit where `atoi` looks for one parses to 0, exactly as C
`atoi` returns 0 when no conversion can be performed. -/
theorem atoi_of_noLeadingDigit (s : String) (h : noLeadingDigit s = true) :
    atoi s = 0 := by
  unfold atoi
  unfold noLeadingDigit at h
  cases hd : s.data.dropWhile isSpaceCh with
  | nil => rfl
  | cons c rest =>
    rw [hd] at h
    simp only [] at h ⊢
    by_cases hm : c = '-'
    · rw [if_pos (Or.inl hm)] at h
      rw [if_pos hm]
      cases rest with
      | nil => rfl
      | cons d ds =>
        simp only [decide_eq_true_eq] at h
        rw [atoiLoop_head_nondigit d ds (by simpa using h)]
        simp
    · by_cases hp : c = '+'
      · rw [if_pos (Or.inr hp)] at h
        rw [if_neg hm, if_pos hp]
        cases rest with
        | nil => rfl
        | cons d ds =>
          simp only [decide_eq_true_eq] at h
          exact atoiLoop_head_nondigit d ds (by simpa using h)
      · rw [if_neg (by tauto)] at h
        rw [if_neg hm, if_neg hp]
        simp only [decide_eq_true_eq] at h
        exact atoiLoop_head_nondigit c rest (by simpa using h)

/-- Claim C10: a first token `#` followed by text that does not parse as a
number (no digit after optional whitespace and sign — e.g. `#abc` or `#`
alone) yields index `atoi = 0`, so with non-empty history the oldest entry
(index 0) is re-invoked, and only with empty history is the invalid-index
error reported. -/
theorem c10_nonnumeric_hash_runs_oldest (env : Env) (command tok : String)
    (htok : tokenize command = [tok])
    (hhash : firstCharD tok = '#')
    (hnd : noLeadingDigit (strTail tok) = true) :
    atoi (strTail tok) = 0 ∧
    execute_builtin_command env command = some (execute_n env.history 0) ∧
    (env.history = [] →
      execute_n env.history 0 = ⟨1, [Out.invalidIndex], none, false⟩) ∧
    (∀ e rest, env.history = e :: rest →
      execute_n env.history 0 = ⟨0, [Out.commandPrinted e], some e, false⟩) := by
  have h0 := atoi_of_noLeadingDigit _ hnd
  refine ⟨h0, ?_, ?_, ?_⟩
  · unfold execute_builtin_command
    rw [htok]
    have hcd : tok ≠ "cd" := by
      intro hh
      rw [hh] at hhash
      exact absurd hhash (by decide)
    have hhist : tok ≠ "!history" := by
      intro hh
      rw [hh] at hhash
      exact absurd hhash (by decide)
    simp [hcd, hhist, hhash, h0]
  · intro hh
    rw [hh]
    rfl
  · intro e rest hh
    rw [hh]
    unfold execute_n
    rw [if_neg (by simp only [List.length_cons]; push_neg; omega)]
    simp [List.getD]

/-- Witness for C10 at `#abc` with history `[ls -l, pwd]`: the oldest entry
`ls -l` is re-invoked. -/
theorem c10_nonnumeric_hash_runs_oldest_witness :
    atoi (strTail "#abc") = 0 ∧
    execute_builtin_command histEnv "#abc" = some (execute_n histEnv.history 0) ∧
    execute_n histEnv.history 0 =
      ⟨0, [Out.commandPrinted "ls -l"], some "ls -l", false⟩ := by
  have h := c10_nonnumeric_hash_runs_oldest histEnv "#abc" "#abc"
    (by decide) (by decide) (by decide)
  exact ⟨h.1, h.2.1, h.2.2.2 "ls -l" ["pwd"] rfl⟩

end ShellC
